import Mathlib

/-!
# Verification of the `hex_dump` formatting core

A shallow embedding of the Rust crate `hex_dump` (`src/lib.rs`): the
byte/address hex formatters, the text classifier, the block grouper, the
row and header composers, and the dump driver loop.  Bytes are modelled as
`Nat` values below 256, the 32-bit running address as a `Nat` below `2^32`
(with explicit wrap-around where the Rust `u32` arithmetic can overflow),
and strings as Lean `String`s; Rust's `Vec::join` is modelled by `joinSep`.
-/

namespace HexDump

/-- Rust `Vec<String>::join(sep)`: empty list gives `""`, otherwise the
elements interleaved with `sep`. -/
def joinSep (sep : String) : List String → String
  | [] => ""
  | [x] => x
  | x :: xs => x ++ sep ++ joinSep sep xs

/-- One uppercase hexadecimal digit, as produced by Rust's `{:X}` formatting
for a digit value `0..=15`. -/
def hexUpperChar (n : Nat) : Char :=
  if n < 10 then Char.ofNat (48 + n) else Char.ofNat (55 + n)

/-- `byte_to_hex` (src/lib.rs:158-160): `format!("{:02X}", byte)` — two
uppercase, zero-padded hex digits.  The Rust argument is a `u8`, so the
value has exactly the two digits `b / 16` and `b % 16`. -/
def byte_to_hex (b : Nat) : String :=
  ⟨[hexUpperChar (b / 16), hexUpperChar (b % 16)]⟩

/-- Big-endian, zero-padded list of `len` lowercase hex digits of `n`
(`Nat.digitChar` maps `0..=15` to `0-9a-f`). -/
def hexLowerChars : Nat → Nat → List Char
  | _, 0 => []
  | n, l + 1 => hexLowerChars (n / 16) l ++ [Nat.digitChar (n % 16)]

/-- `address_to_hex` (src/lib.rs:162-164): `format!("{:#010x}", address)` —
`"0x"` followed by 8 zero-padded lowercase hex digits of the `u32`. -/
def address_to_hex (a : Nat) : String :=
  ⟨'0' :: 'x' :: hexLowerChars a 8⟩

/-- Models `ascii_utils::Check::is_printable` on `char::from(byte)`,
the classifier the crate imports (printable ASCII: space `32` through
tilde `126`). -/
def is_printable (b : Nat) : Bool :=
  32 ≤ b && b ≤ 126

/-- `byte_to_string` (src/lib.rs:149-156): the byte's character when
printable, otherwise the placeholder `"."`. -/
def byte_to_string (b : Nat) : String :=
  if is_printable b then String.singleton (Char.ofNat b) else "."

/-- `gen_block` (src/lib.rs:99-119): split `data` into `columns / 8` blocks
of 8 positions; block `i` renders `data[min(len, i*8) .. min(len, i*8+8)]`
through `f` and is padded with `filler` up to 8 entries, the entries joined
by `sep`. -/
def gen_block (data : List Nat) (f : Nat → String) (columns : Nat)
    (sep filler : String) : List String :=
  (List.range (columns / 8)).map fun block =>
    let start := min data.length (block * 8)
    let stop := min data.length (start + 8)
    let slice := (data.drop start).take (stop - start)
    let entries := slice.map f
    let entries := entries ++ List.replicate (8 - entries.length) filler
    joinSep sep entries

/-- `create_row` (src/lib.rs:145-147): `format!("{}  {}  {}\n", ...)`. -/
def create_row (address data text : String) : String :=
  address ++ "  " ++ data ++ "  " ++ text ++ "\n"

/-- `data_row` (src/lib.rs:135-143): address, hex blocks joined by two
spaces, text blocks joined by the empty string. -/
def data_row (address : Nat) (data : List Nat) (columns : Nat) : String :=
  let addr := address_to_hex address
  let blocks := joinSep "  " (gen_block data byte_to_hex columns " " "..")
  let texts := joinSep "" (gen_block data byte_to_string columns "" ".")
  create_row addr blocks texts

/-- Rust `str::to_lowercase` on the ASCII strings the crate produces:
lowercase every character. -/
def strToLower (s : String) : String :=
  ⟨s.data.map Char.toLower⟩

/-- `locations_header` (src/lib.rs:121-133): the indices `0..columns`
rendered through the hex channel, a 10-space address field, a
`columns`-space text field, the row lowercased.  (The `format!` on
line 127 computes a string whose value is discarded.) -/
def locations_header (columns : Nat) : String :=
  let data := List.range columns
  let blocks := joinSep "  " (gen_block data byte_to_hex columns " " "..")
  let address : String := ⟨List.replicate 10 ' '⟩
  let text : String := ⟨List.replicate columns ' '⟩
  strToLower (create_row address blocks text)

/-- One `reader.read(&mut buffer)` outcome seen by the dump loop: `ok chunk`
for `Ok(bytes_read)` with `chunk = buffer[0..bytes_read]`, `err e` for
`Err(e)` where `e` is the error's display text. -/
inductive ReadResult where
  | ok (chunk : List Nat)
  | err (e : String)
  deriving DecidableEq

/-- Outcome of the dump loop: `none` when the read trace ran out without an
EOF or error (the Rust loop would keep reading), otherwise the loop's
return value — `Except.ok` on EOF, `Except.error msg` on a read failure. -/
abbrev DumpOutcome := Option (Except String Unit)

/-- The loop of `dump` (src/lib.rs:73-96), from a given running address:
consume read results in order; `Ok(0)` returns success; `Ok(n)` with `n>0`
writes a blank line when `address % (16*columns) == 0`, writes the data
row, and advances the `u32` address by `n`; `Err(e)` returns the error
`format!("{} : {:?}", e, cli.input)`.  Produces the text written to the
sink paired with the outcome. -/
def dump_loop (columns : Nat) (input : String) :
    Nat → List ReadResult → String × DumpOutcome
  | _, [] => ("", none)
  | _, .ok [] :: _ => ("", some (.ok ()))
  | address, .ok chunk :: rest =>
      let sep : String := if address % (16 * columns) = 0 then "\n" else ""
      let row := data_row address chunk columns
      let next := dump_loop columns input ((address + chunk.length) % 2 ^ 32) rest
      (sep ++ row ++ next.1, next.2)
  | _, .err e :: _ => ("", some (.error (e ++ " : " ++ input)))

/-- `dump` (src/lib.rs:43-97) after the files are opened: write the header,
then run the loop from address `0` over the given read trace. -/
def dump (columns : Nat) (input : String) (reads : List ReadResult) :
    String × DumpOutcome :=
  let next := dump_loop columns input 0 reads
  (locations_header columns ++ next.1, next.2)

/-- Value of one hexadecimal digit character (either case), used to parse a
hex string back into a number for the round-trip property. -/
def hexDigitVal (c : Char) : Nat :=
  if 48 ≤ c.toNat ∧ c.toNat ≤ 57 then c.toNat - 48
  else if 65 ≤ c.toNat ∧ c.toNat ≤ 70 then c.toNat - 55
  else if 97 ≤ c.toNat ∧ c.toNat ≤ 102 then c.toNat - 87
  else 0

/-- Parse a string of hex digits as a base-16 number (most significant
digit first). -/
def parseHex (s : String) : Nat :=
  s.data.foldl (fun acc c => 16 * acc + hexDigitVal c) 0

/-- The chunks of a read trace paired with the running `u32` address at
which the dump loop reaches each of them. -/
def chunkAddrs (start : Nat) : List (List Nat) → List (Nat × List Nat)
  | [] => []
  | c :: cs => (start, c) :: chunkAddrs ((start + c.length) % 2 ^ 32) cs

set_option maxRecDepth 8000

/-- The entries of one `gen_block` block, stated positionally: entry `j`
renders byte `b * 8 + j` when that position exists and the filler
otherwise. -/
lemma block_entries (data : List Nat) (f : Nat → String) (filler : String) (b : Nat) :
    ((data.drop (min data.length (b * 8))).take
        (min data.length (min data.length (b * 8) + 8) - min data.length (b * 8))).map f ++
      List.replicate (8 - (((data.drop (min data.length (b * 8))).take
        (min data.length (min data.length (b * 8) + 8) - min data.length (b * 8))).map f).length)
        filler =
    (List.range 8).map (fun j =>
      if b * 8 + j < data.length then f (data.getD (b * 8 + j) 0) else filler) := by
  apply List.ext_getElem
  · simp only [List.length_append, List.length_replicate, List.length_map, List.length_take,
      List.length_drop, List.length_range]
    omega
  · intro i h1 h2
    simp only [List.length_map, List.length_range] at h2
    rw [List.getElem_map, List.getElem_range]
    by_cases hc : b * 8 + i < data.length
    · have hs : min data.length (b * 8) = b * 8 := by omega
      rw [if_pos hc]
      simp only [hs] at h1 ⊢
      have hlt : i < (((data.drop (b * 8)).take
          (min data.length (b * 8 + 8) - b * 8)).map f).length := by
        simp only [List.length_map, List.length_take, List.length_drop]
        omega
      rw [List.getElem_append_left hlt, List.getElem_map, List.getElem_take, List.getElem_drop]
      congr 1
      rw [List.getD_eq_getElem?_getD, List.getElem?_eq_getElem hc]
      rfl
    · rw [if_neg hc]
      have hge : (((data.drop (min data.length (b * 8))).take
          (min data.length (min data.length (b * 8) + 8) - min data.length (b * 8))).map f).length
          ≤ i := by
        simp only [List.length_map, List.length_take, List.length_drop]
        omega
      rw [List.getElem_append_right hge, List.getElem_replicate]

/-- `gen_block` characterized positionally: block `b` joins the renderings
of positions `b * 8 + j` for `j < 8`, using the filler at positions beyond
the end of `data`. -/
lemma gen_block_positional (data : List Nat) (f : Nat → String) (columns : Nat)
    (sep filler : String) :
    gen_block data f columns sep filler =
      (List.range (columns / 8)).map fun b =>
        joinSep sep ((List.range 8).map fun j =>
          if b * 8 + j < data.length then f (data.getD (b * 8 + j) 0) else filler) := by
  unfold gen_block
  apply List.map_congr_left
  intro b _
  rw [← block_entries data f filler b]

lemma joinSep_empty_cons (a : String) (l : List String) :
    joinSep "" (a :: l) = a ++ joinSep "" l := by
  cases l with
  | nil => simp [joinSep]
  | cons b bs => simp [joinSep]

lemma joinSep_empty_append (l1 l2 : List String) :
    joinSep "" (l1 ++ l2) = joinSep "" l1 ++ joinSep "" l2 := by
  induction l1 with
  | nil => simp [joinSep]
  | cons a l ih => simp [List.cons_append, joinSep_empty_cons, ih, String.append_assoc]

/-- Joining the block-wise joins with no separator flattens to one join
over all `k * 8` positions. -/
lemma joinSep_empty_flatten (k : Nat) (g : Nat → String) :
    joinSep "" ((List.range k).map fun b =>
      joinSep "" ((List.range 8).map fun j => g (b * 8 + j))) =
    joinSep "" ((List.range (k * 8)).map g) := by
  induction k with
  | zero => simp [joinSep]
  | succ k ih =>
      rw [List.range_succ k, List.map_append, joinSep_empty_append, ih]
      rw [show (k + 1) * 8 = k * 8 + 8 by ring, List.range_add (k * 8) 8, List.map_append,
        joinSep_empty_append]
      congr 1

/-- For a full row, the blocks joined with no separator are exactly the
per-byte renderings concatenated, with no block boundary left visible. -/
lemma joinSep_gen_block_full (data : List Nat) (f : Nat → String) (filler : String)
    (columns : Nat) (hlen : data.length = columns) (hdvd : columns % 8 = 0) :
    joinSep "" (gen_block data f columns "" filler) = joinSep "" (data.map f) := by
  rw [gen_block_positional]
  have h8 : columns / 8 * 8 = columns := Nat.div_mul_cancel (Nat.dvd_of_mod_eq_zero hdvd)
  have hcongr : ∀ b ∈ List.range (columns / 8),
      (joinSep "" ((List.range 8).map fun j =>
        if b * 8 + j < data.length then f (data.getD (b * 8 + j) 0) else filler)) =
      joinSep "" ((List.range 8).map fun j => f (data.getD (b * 8 + j) 0)) := by
    intro b hb
    rw [List.mem_range] at hb
    congr 1
    apply List.map_congr_left
    intro j hj
    rw [List.mem_range] at hj
    rw [if_pos (by omega)]
  rw [List.map_congr_left hcongr]
  calc joinSep "" ((List.range (columns / 8)).map fun b =>
          joinSep "" ((List.range 8).map fun j => f (data.getD (b * 8 + j) 0)))
      = joinSep "" ((List.range (columns / 8 * 8)).map fun i => f (data.getD i 0)) :=
        joinSep_empty_flatten (columns / 8) (fun i => f (data.getD i 0))
    _ = joinSep "" (data.map f) := by
        rw [h8, ← hlen]
        congr 1
        apply List.ext_getElem
        · simp only [List.length_map, List.length_range]
        · intro i h1 h2
          simp only [List.length_map, List.length_range] at h1
          rw [List.getElem_map, List.getElem_map, List.getElem_range]
          congr 1
          rw [List.getD_eq_getElem?_getD, List.getElem?_eq_getElem (by simpa using h2)]
          rfl

/-- C2: `data_row` at address `3735928559` with Columns=16 renders the full
16-byte row `0x30..0x37,0x38,0x39,0x41..0x46` exactly as
`"0xdeadbeef  30 31 32 33 34 35 36 37  38 39 41 42 43 44 45 46  0123456789ABCDEF\n"`,
and the short 4-byte row `0x30,0x31,0x32,0x33` exactly as
`"0xdeadbeef  30 31 32 33 .. .. .. ..  .. .. .. .. .. .. .. ..  0123............\n"`. -/
theorem data_row_examples :
    data_row 3735928559 [48, 49, 50, 51, 52, 53, 54, 55, 56, 57, 65, 66, 67, 68, 69, 70] 16 =
      "0xdeadbeef  30 31 32 33 34 35 36 37  38 39 41 42 43 44 45 46  0123456789ABCDEF\n" ∧
    data_row 3735928559 [48, 49, 50, 51] 16 =
      "0xdeadbeef  30 31 32 33 .. .. .. ..  .. .. .. .. .. .. .. ..  0123............\n" := by
  constructor <;> decide

/-- C3: the header for Columns=8 is exactly 12 spaces, `00`..`07`, 10
trailing spaces and a newline; for Columns=16 it additionally shows
`08`..`0f` with all hex digits lowercase and 18 trailing spaces. -/
theorem locations_header_examples :
    locations_header 8 = "            00 01 02 03 04 05 06 07          \n" ∧
    locations_header 16 =
      "            00 01 02 03 04 05 06 07  08 09 0a 0b 0c 0d 0e 0f                  \n" := by
  constructor <;> decide

/-- C7: for every byte value, `byte_to_hex` yields exactly two characters,
and parsing them back in base 16 recovers the byte. -/
theorem byte_to_hex_roundtrip (b : Nat) (hb : b < 256) :
    (byte_to_hex b).length = 2 ∧ parseHex (byte_to_hex b) = b := by
  revert b hb
  decide

/-- Witness for `byte_to_hex_roundtrip` at `b = 255`. -/
theorem byte_to_hex_roundtrip_witness :
    (byte_to_hex 255).length = 2 ∧ parseHex (byte_to_hex 255) = 255 :=
  byte_to_hex_roundtrip 255 (by decide)

/-- C8: for every byte value, `byte_to_string` yields exactly one
character: the byte's own character when it is printable — in particular
for every ASCII letter and digit — and the placeholder `"."` otherwise. -/
theorem byte_to_string_classifies (b : Nat) (hb : b < 256) :
    (byte_to_string b).length = 1 ∧
    (is_printable b = true → byte_to_string b = String.singleton (Char.ofNat b)) ∧
    (is_printable b = false → byte_to_string b = ".") ∧
    ((48 ≤ b ∧ b ≤ 57) ∨ (65 ≤ b ∧ b ≤ 90) ∨ (97 ≤ b ∧ b ≤ 122) →
      byte_to_string b = String.singleton (Char.ofNat b)) := by
  revert b hb
  decide

/-- Witness for `byte_to_string_classifies` at `b = 65` (the letter `A`). -/
theorem byte_to_string_classifies_witness :
    (byte_to_string 65).length = 1 ∧
    (is_printable 65 = true → byte_to_string 65 = String.singleton (Char.ofNat 65)) ∧
    (is_printable 65 = false → byte_to_string 65 = ".") ∧
    ((48 ≤ 65 ∧ 65 ≤ 57) ∨ (65 ≤ 65 ∧ 65 ≤ 90) ∨ (97 ≤ 65 ∧ 65 ≤ 122) →
      byte_to_string 65 = String.singleton (Char.ofNat 65)) :=
  byte_to_string_classifies 65 (by decide)

lemma hexLowerChars_length : ∀ (len n : Nat), (hexLowerChars n len).length = len
  | 0, _ => rfl
  | len + 1, n => by
      rw [hexLowerChars, List.length_append, hexLowerChars_length len (n / 16)]
      rfl

lemma digitChar_hexRange : ∀ d : Nat, d < 16 →
    ('0' ≤ Nat.digitChar d ∧ Nat.digitChar d ≤ '9') ∨
    ('a' ≤ Nat.digitChar d ∧ Nat.digitChar d ≤ 'f') := by decide

lemma digitChar_lt : ∀ e : Nat, e < 16 → ∀ d : Nat, d < e →
    Nat.digitChar d < Nat.digitChar e := by decide

lemma hexLowerChars_mem : ∀ (len n : Nat), ∀ c ∈ hexLowerChars n len,
    ('0' ≤ c ∧ c ≤ '9') ∨ ('a' ≤ c ∧ c ≤ 'f')
  | 0, n, c, h => absurd h (List.not_mem_nil c)
  | len + 1, n, c, h => by
      rw [hexLowerChars] at h
      rcases List.mem_append.mp h with h | h
      · exact hexLowerChars_mem len (n / 16) c h
      · rw [List.mem_singleton] at h
        subst h
        exact digitChar_hexRange (n % 16) (Nat.mod_lt n (by omega))

lemma lex_append_last (l : List Char) (x y : Char) (h : x < y) :
    List.Lex (· < ·) (l ++ [x]) (l ++ [y]) := by
  induction l with
  | nil => exact List.Lex.rel h
  | cons c l ih => exact List.Lex.cons ih

lemma lex_append_any : ∀ {l₁ l₂ : List Char}, List.Lex (· < ·) l₁ l₂ →
    l₁.length = l₂.length → ∀ (x y : Char), List.Lex (· < ·) (l₁ ++ [x]) (l₂ ++ [y]) := by
  intro l₁ l₂ h
  induction h with
  | nil =>
      intro hlen
      simp at hlen
  | cons h ih =>
      intro hlen x y
      exact List.Lex.cons (ih (by simpa using hlen) x y)
  | rel h =>
      intro _ x y
      exact List.Lex.rel h

/-- Fixed-width lowercase hex digit lists compare lexicographically the
same way their values compare numerically. -/
lemma hexLowerChars_lt : ∀ (len a b : Nat), a < b → b < 16 ^ len →
    List.Lex (· < ·) (hexLowerChars a len) (hexLowerChars b len)
  | 0, a, b, hab, hb => absurd hab (by simp at hb; omega)
  | len + 1, a, b, hab, hb => by
      rw [hexLowerChars, hexLowerChars]
      rcases Nat.lt_or_ge (a / 16) (b / 16) with h | h
      · have hb' : b / 16 < 16 ^ len := by
          rw [pow_succ] at hb
          omega
        exact lex_append_any (hexLowerChars_lt len (a / 16) (b / 16) h hb')
          (by rw [hexLowerChars_length, hexLowerChars_length]) _ _
      · have hq : a / 16 = b / 16 := by omega
        have hr : a % 16 < b % 16 := by omega
        rw [hq]
        exact lex_append_last _ _ _ (digitChar_lt (b % 16) (Nat.mod_lt b (by omega)) (a % 16) hr)

lemma address_to_hex_lt (a b : Nat) (hab : a < b) (hb : b < 2 ^ 32) :
    address_to_hex a < address_to_hex b := by
  rw [String.lt_iff_toList_lt]
  show List.Lex (· < ·) ('0' :: 'x' :: hexLowerChars a 8) ('0' :: 'x' :: hexLowerChars b 8)
  refine List.Lex.cons (List.Lex.cons (hexLowerChars_lt 8 a b hab ?_))
  have h16 : (16 : Nat) ^ 8 = 2 ^ 32 := by norm_num
  rw [h16]
  exact hb

lemma byte_to_hex_length (b : Nat) : (byte_to_hex b).length = 2 := rfl

lemma byte_to_string_length (b : Nat) : (byte_to_string b).length = 1 := by
  unfold byte_to_string
  split
  · rfl
  · rfl

lemma joinSep_length (sep : String) : ∀ (l : List String) (m : Nat),
    (∀ s ∈ l, s.length = m) →
    (joinSep sep l).length = l.length * m + (l.length - 1) * sep.length
  | [], m, _ => by simp [joinSep]
  | [x], m, h => by
      show x.length = 1 * m + (1 - 1) * sep.length
      rw [h x (by simp)]
      ring
  | x :: y :: ys, m, h => by
      show (x ++ sep ++ joinSep sep (y :: ys)).length = _
      rw [String.length_append, String.length_append,
        joinSep_length sep (y :: ys) m (fun s hs => h s (List.mem_cons_of_mem x hs)),
        h x (List.mem_cons_self x _)]
      simp only [List.length_cons, Nat.add_sub_cancel]
      ring

lemma gen_block_length (data : List Nat) (f : Nat → String) (columns : Nat)
    (sep filler : String) :
    (gen_block data f columns sep filler).length = columns / 8 := by
  simp [gen_block]

/-- Every rendered block string has the same length: 8 entries of width
`m` and 7 separators. -/
lemma gen_block_elem_length (data : List Nat) (f : Nat → String) (columns : Nat)
    (sep filler : String) (m : Nat)
    (hf : ∀ b, (f b).length = m) (hfill : filler.length = m) :
    ∀ s ∈ gen_block data f columns sep filler, s.length = 8 * m + 7 * sep.length := by
  intro s hs
  unfold gen_block at hs
  rw [List.mem_map] at hs
  obtain ⟨b, hb, rfl⟩ := hs
  simp only []
  rw [joinSep_length _ _ m]
  · congr 1
    · congr 1
      simp only [List.length_append, List.length_map, List.length_take, List.length_drop,
        List.length_replicate]
      omega
    · congr 1
      simp only [List.length_append, List.length_map, List.length_take, List.length_drop,
        List.length_replicate]
      omega
  · intro t ht
    rcases List.mem_append.mp ht with ht | ht
    · rw [List.mem_map] at ht
      obtain ⟨u, _, rfl⟩ := ht
      exact hf u
    · rw [List.eq_of_mem_replicate ht]
      exact hfill

/-- The dump loop on a trace of nonempty successful chunks followed by
EOF: the written text is the concatenation, chunk by chunk, of an optional
blank-line separator (exactly when the chunk's running address is `0`
modulo `16 * columns`) and the chunk's data row; the outcome is success. -/
lemma dump_loop_ok (columns : Nat) (input : String) :
    ∀ (chunks : List (List Nat)) (address : Nat), (∀ c ∈ chunks, c ≠ []) →
    dump_loop columns input address (chunks.map ReadResult.ok ++ [.ok []]) =
      (joinSep "" ((chunkAddrs address chunks).map fun p =>
        (if p.1 % (16 * columns) = 0 then "\n" else "") ++ data_row p.1 p.2 columns),
       some (.ok ()))
  | [], address, _ => by simp [dump_loop, chunkAddrs, joinSep]
  | c :: cs, address, h => by
      have hc : c ≠ [] := h c (List.mem_cons_self c cs)
      cases c with
      | nil => exact absurd rfl hc
      | cons b bs =>
          show ((if address % (16 * columns) = 0 then ("\n" : String) else "") ++
              data_row address (b :: bs) columns ++
              (dump_loop columns input ((address + (b :: bs).length) % 2 ^ 32)
                (cs.map ReadResult.ok ++ [.ok []])).1,
            (dump_loop columns input ((address + (b :: bs).length) % 2 ^ 32)
                (cs.map ReadResult.ok ++ [.ok []])).2) = _
          rw [dump_loop_ok columns input cs ((address + (b :: bs).length) % 2 ^ 32)
            (fun d hd => h d (List.mem_cons_of_mem _ hd))]
          show ((if address % (16 * columns) = 0 then ("\n" : String) else "") ++
              data_row address (b :: bs) columns ++ _, _) = _
          rw [chunkAddrs, List.map_cons, joinSep_empty_cons]

/-- The dump loop on nonempty successful chunks followed by a read error:
the outcome is the error message built from the error text and the input,
and the written text is exactly what the same prefix of chunks would have
produced — nothing is written for the failed read or after it. -/
lemma dump_loop_err (columns : Nat) (input e : String) (rest : List ReadResult) :
    ∀ (chunks : List (List Nat)) (address : Nat), (∀ c ∈ chunks, c ≠ []) →
    dump_loop columns input address (chunks.map ReadResult.ok ++ .err e :: rest) =
      ((dump_loop columns input address (chunks.map ReadResult.ok ++ [.ok []])).1,
       some (.error (e ++ " : " ++ input)))
  | [], address, _ => by simp [dump_loop]
  | c :: cs, address, h => by
      have hc : c ≠ [] := h c (List.mem_cons_self c cs)
      cases c with
      | nil => exact absurd rfl hc
      | cons b bs =>
          show ((if address % (16 * columns) = 0 then ("\n" : String) else "") ++
              data_row address (b :: bs) columns ++
              (dump_loop columns input ((address + (b :: bs).length) % 2 ^ 32)
                (cs.map ReadResult.ok ++ .err e :: rest)).1,
            (dump_loop columns input ((address + (b :: bs).length) % 2 ^ 32)
                (cs.map ReadResult.ok ++ .err e :: rest)).2) = _
          rw [dump_loop_err columns input e rest cs ((address + (b :: bs).length) % 2 ^ 32)
            (fun d hd => h d (List.mem_cons_of_mem _ hd))]
          rfl

/-- C1 is false on the code: the text channel of `data_row` is NOT the
per-block text strings joined with a single space — at the full 16-byte
row of the crate's own test, the composed row with a single-space text
join differs from what `data_row` returns, and the character between the
8th and 9th classified characters (index 70 of the line) is `'8'`, not a
space. -/
theorem ascii_space_join_refuted :
    data_row 3735928559 [48, 49, 50, 51, 52, 53, 54, 55, 56, 57, 65, 66, 67, 68, 69, 70] 16 ≠
      create_row (address_to_hex 3735928559)
        (joinSep "  " (gen_block [48, 49, 50, 51, 52, 53, 54, 55, 56, 57, 65, 66, 67, 68, 69, 70]
          byte_to_hex 16 " " ".."))
        (joinSep " " (gen_block [48, 49, 50, 51, 52, 53, 54, 55, 56, 57, 65, 66, 67, 68, 69, 70]
          byte_to_string 16 "" ".")) ∧
    (data_row 3735928559 [48, 49, 50, 51, 52, 53, 54, 55, 56, 57, 65, 66, 67, 68, 69, 70]
      16).data.getD 70 ' ' = '8' := by
  constructor <;> decide

/-- C1 (amended): the ascii channel joins the per-block text strings with
the empty string, so a full row's text field is exactly the per-byte
classified characters concatenated, with no separator between the 8th and
9th characters (or anywhere else). -/
theorem ascii_channel_no_separator (address : Nat) (data : List Nat) (columns : Nat)
    (hcols : columns = 8 ∨ columns = 16 ∨ columns = 32 ∨ columns = 64)
    (hlen : data.length = columns) :
    data_row address data columns =
      create_row (address_to_hex address)
        (joinSep "  " (gen_block data byte_to_hex columns " " ".."))
        (joinSep "" (data.map byte_to_string)) := by
  have hdvd : columns % 8 = 0 := by rcases hcols with h | h | h | h <;> subst h <;> rfl
  simp only [data_row]
  rw [joinSep_gen_block_full data byte_to_string "." columns hlen hdvd]

/-- Witness for `ascii_channel_no_separator` at a concrete full row. -/
theorem ascii_channel_no_separator_witness :
    data_row 0 [65, 66, 67, 68, 69, 70, 71, 72] 8 =
      create_row (address_to_hex 0)
        (joinSep "  " (gen_block [65, 66, 67, 68, 69, 70, 71, 72] byte_to_hex 8 " " ".."))
        (joinSep "" ([65, 66, 67, 68, 69, 70, 71, 72].map byte_to_string)) :=
  ascii_channel_no_separator 0 [65, 66, 67, 68, 69, 70, 71, 72] 8 (Or.inl rfl) rfl

/-- C4: for the allowed column widths and a row no longer than `columns`,
both channels render position `b * 8 + j` from the data when it exists and
with the channel's filler (`".."` for hex, `"."` for text) when it is
missing, each block holding exactly 8 positions; for a row of length
exactly `columns` no position uses the filler — every entry is the
rendering of an actual byte. -/
theorem gen_block_padding (columns : Nat) (data : List Nat)
    (hcols : columns = 8 ∨ columns = 16 ∨ columns = 32 ∨ columns = 64)
    (hlen : data.length ≤ columns) :
    gen_block data byte_to_hex columns " " ".." =
      (List.range (columns / 8)).map (fun b =>
        joinSep " " ((List.range 8).map fun j =>
          if b * 8 + j < data.length then byte_to_hex (data.getD (b * 8 + j) 0) else "..")) ∧
    gen_block data byte_to_string columns "" "." =
      (List.range (columns / 8)).map (fun b =>
        joinSep "" ((List.range 8).map fun j =>
          if b * 8 + j < data.length then byte_to_string (data.getD (b * 8 + j) 0) else ".")) ∧
    (data.length = columns →
      gen_block data byte_to_hex columns " " ".." =
        (List.range (columns / 8)).map (fun b =>
          joinSep " " ((List.range 8).map fun j => byte_to_hex (data.getD (b * 8 + j) 0))) ∧
      gen_block data byte_to_string columns "" "." =
        (List.range (columns / 8)).map (fun b =>
          joinSep "" ((List.range 8).map fun j => byte_to_string (data.getD (b * 8 + j) 0)))) := by
  have hfull : ∀ (f : Nat → String) (sep filler : String), data.length = columns →
      gen_block data f columns sep filler =
        (List.range (columns / 8)).map (fun b =>
          joinSep sep ((List.range 8).map fun j => f (data.getD (b * 8 + j) 0))) := by
    intro f sep filler hl
    rw [gen_block_positional]
    apply List.map_congr_left
    intro b hb
    rw [List.mem_range] at hb
    congr 1
    apply List.map_congr_left
    intro j hj
    rw [List.mem_range] at hj
    rw [if_pos (by omega)]
  exact ⟨gen_block_positional data byte_to_hex columns " " "..",
    gen_block_positional data byte_to_string columns "" ".",
    fun hl => ⟨hfull byte_to_hex " " ".." hl, hfull byte_to_string "" "." hl⟩⟩

/-- Witness for `gen_block_padding` at Columns = 8 with the short row
`[65]`. -/
theorem gen_block_padding_witness :
    gen_block [65] byte_to_hex 8 " " ".." =
      (List.range (8 / 8)).map (fun b =>
        joinSep " " ((List.range 8).map fun j =>
          if b * 8 + j < [65].length then byte_to_hex ([65].getD (b * 8 + j) 0) else "..")) ∧
    gen_block [65] byte_to_string 8 "" "." =
      (List.range (8 / 8)).map (fun b =>
        joinSep "" ((List.range 8).map fun j =>
          if b * 8 + j < [65].length then byte_to_string ([65].getD (b * 8 + j) 0) else ".")) ∧
    ([65].length = 8 →
      gen_block [65] byte_to_hex 8 " " ".." =
        (List.range (8 / 8)).map (fun b =>
          joinSep " " ((List.range 8).map fun j => byte_to_hex ([65].getD (b * 8 + j) 0))) ∧
      gen_block [65] byte_to_string 8 "" "." =
        (List.range (8 / 8)).map (fun b =>
          joinSep "" ((List.range 8).map fun j => byte_to_string ([65].getD (b * 8 + j) 0)))) :=
  gen_block_padding 8 [65] (Or.inl rfl) (by decide)

/-- C5: over any read trace of nonempty chunks ending at EOF, the dump
writes, for each chunk in order, a blank-line separator exactly when the
running address at that chunk is `0` modulo `16 * Columns`, followed by
the chunk's data row — and nothing else besides the initial header; the
run succeeds. -/
theorem dump_separator_policy (columns : Nat) (input : String) (chunks : List (List Nat))
    (hne : ∀ c ∈ chunks, c ≠ []) :
    (dump columns input (chunks.map ReadResult.ok ++ [.ok []])).1 =
      locations_header columns ++
        joinSep "" ((chunkAddrs 0 chunks).map fun p =>
          (if p.1 % (16 * columns) = 0 then "\n" else "") ++ data_row p.1 p.2 columns) ∧
    (dump columns input (chunks.map ReadResult.ok ++ [.ok []])).2 = some (.ok ()) := by
  unfold dump
  rw [dump_loop_ok columns input chunks 0 hne]
  exact ⟨rfl, rfl⟩

/-- Witness for `dump_separator_policy`: Columns = 8 with two one-byte
chunks — the first row (address 0) gets a separator, the second
(address 1) does not. -/
theorem dump_separator_policy_witness :
    (dump 8 "input.bin" ([[65], [66]].map ReadResult.ok ++ [.ok []])).1 =
      locations_header 8 ++
        joinSep "" ((chunkAddrs 0 [[65], [66]]).map fun p =>
          (if p.1 % (16 * 8) = 0 then "\n" else "") ++ data_row p.1 p.2 8) ∧
    (dump 8 "input.bin" ([[65], [66]].map ReadResult.ok ++ [.ok []])).2 = some (.ok ()) :=
  dump_separator_policy 8 "input.bin" [[65], [66]] (by decide)

/-- C9 is false as stated: the error context does not identify the address
at which the failure occurred — a read failure after one full 16-byte row
(address 16) and a failure on the very first read (address 0) produce the
identical error value `"oops : input.bin"`, which mentions only the error
text and the stream. -/
theorem dump_error_context_refuted :
    (dump 16 "input.bin" [ReadResult.ok (List.replicate 16 65), .err "oops"]).2 =
      some (.error "oops : input.bin") ∧
    (dump 16 "input.bin" [.err "oops"]).2 = some (.error "oops : input.bin") := by
  constructor <;> rfl

/-- C9 (amended): on a read failure the driver stops immediately and
returns an error whose context identifies the stream (the message appends
the input to the error text; the failing address is not included); no
output is written for the failed chunk, and the sink holds exactly the
lines the successful prefix produced. -/
theorem dump_error_stops (columns : Nat) (input e : String) (chunks : List (List Nat))
    (rest : List ReadResult) (hne : ∀ c ∈ chunks, c ≠ []) :
    (dump columns input (chunks.map ReadResult.ok ++ .err e :: rest)).2 =
      some (.error (e ++ " : " ++ input)) ∧
    (dump columns input (chunks.map ReadResult.ok ++ .err e :: rest)).1 =
      (dump columns input (chunks.map ReadResult.ok ++ [.ok []])).1 := by
  unfold dump
  rw [dump_loop_err columns input e rest chunks 0 hne]
  exact ⟨rfl, rfl⟩

/-- Witness for `dump_error_stops`: one good chunk, then a failure. -/
theorem dump_error_stops_witness :
    (dump 8 "input.bin" ([[65]].map ReadResult.ok ++ .err "oops" :: [])).2 =
      some (.error ("oops" ++ " : " ++ "input.bin")) ∧
    (dump 8 "input.bin" ([[65]].map ReadResult.ok ++ .err "oops" :: [])).1 =
      (dump 8 "input.bin" ([[65]].map ReadResult.ok ++ [.ok []])).1 :=
  dump_error_stops 8 "input.bin" "oops" [[65]] [] (by decide)

/-- C6: the formatted address is always 10 characters — `"0x"` followed by
8 lowercase zero-padded hex digits — and formatting is monotone: numeric
order of 32-bit addresses matches lexicographic order of their strings. -/
theorem address_to_hex_spec (a b : Nat) (ha : a < 2 ^ 32) (hb : b < 2 ^ 32) (hab : a ≤ b) :
    (address_to_hex a).length = 10 ∧
    address_to_hex a = "0x" ++ (⟨hexLowerChars a 8⟩ : String) ∧
    (hexLowerChars a 8).length = 8 ∧
    (∀ c ∈ hexLowerChars a 8, ('0' ≤ c ∧ c ≤ '9') ∨ ('a' ≤ c ∧ c ≤ 'f')) ∧
    address_to_hex a ≤ address_to_hex b := by
  refine ⟨?_, rfl, hexLowerChars_length 8 a, hexLowerChars_mem 8 a, ?_⟩
  · show ('0' :: 'x' :: hexLowerChars a 8).length = 10
    simp [hexLowerChars_length]
  · rcases eq_or_lt_of_le hab with rfl | h
    · exact le_refl _
    · exact le_of_lt (address_to_hex_lt a b h hb)

/-- Witness for `address_to_hex_spec` at `a = 0`, `b = 3735928559`. -/
theorem address_to_hex_spec_witness :
    (address_to_hex 0).length = 10 ∧
    address_to_hex 0 = "0x" ++ (⟨hexLowerChars 0 8⟩ : String) ∧
    (hexLowerChars 0 8).length = 8 ∧
    (∀ c ∈ hexLowerChars 0 8, ('0' ≤ c ∧ c ≤ '9') ∨ ('a' ≤ c ∧ c ≤ 'f')) ∧
    address_to_hex 0 ≤ address_to_hex 3735928559 :=
  address_to_hex_spec 0 3735928559 (by norm_num) (by norm_num) (by norm_num)

/-- C10: for the allowed column widths, every data row — short or full —
renders to a line of the same length, determined by Columns alone:
`10 + 2 + (Columns/8)*23 + (Columns/8 - 1)*2 + 2 + Columns + 1`. -/
theorem data_row_length_invariant (columns address : Nat) (data : List Nat)
    (hcols : columns = 8 ∨ columns = 16 ∨ columns = 32 ∨ columns = 64)
    (h1 : 1 ≤ data.length) (h2 : data.length ≤ columns) :
    (data_row address data columns).length =
      10 + 2 + columns / 8 * 23 + (columns / 8 - 1) * 2 + 2 + columns + 1 := by
  have haddr : (address_to_hex address).length = 10 := by
    show ('0' :: 'x' :: hexLowerChars address 8).length = 10
    simp [hexLowerChars_length]
  have hhex : (joinSep "  " (gen_block data byte_to_hex columns " " "..")).length =
      columns / 8 * 23 + (columns / 8 - 1) * 2 := by
    rw [joinSep_length "  " _ 23
      (gen_block_elem_length data byte_to_hex columns " " ".." 2 byte_to_hex_length rfl)]
    rw [gen_block_length]
    norm_num [show ("  " : String).length = 2 from rfl]
  have htext : (joinSep "" (gen_block data byte_to_string columns "" ".")).length =
      columns := by
    rw [joinSep_length "" _ 8
      (gen_block_elem_length data byte_to_string columns "" "." 1 byte_to_string_length rfl)]
    rw [gen_block_length]
    show columns / 8 * 8 + (columns / 8 - 1) * 0 = columns
    rcases hcols with rfl | rfl | rfl | rfl <;> norm_num
  show (create_row (address_to_hex address)
      (joinSep "  " (gen_block data byte_to_hex columns " " ".."))
      (joinSep "" (gen_block data byte_to_string columns "" "."))).length = _
  unfold create_row
  simp only [String.length_append, haddr, hhex, htext,
    show ("  " : String).length = 2 from rfl, show ("\n" : String).length = 1 from rfl]
  omega

/-- Witness for `data_row_length_invariant`: the short 4-byte Columns=16
row has the same length, 79, as any full row. -/
theorem data_row_length_invariant_witness :
    (data_row 3735928559 [48, 49, 50, 51] 16).length =
      10 + 2 + 16 / 8 * 23 + (16 / 8 - 1) * 2 + 2 + 16 + 1 :=
  data_row_length_invariant 16 3735928559 [48, 49, 50, 51] (Or.inr (Or.inl rfl))
    (by decide) (by decide)

end HexDump
